import Mathlib

set_option linter.unusedVariables false

/-! Verification model of the PersonalAssistantBot logic in app.py.
Python strings are modelled as lists of unicode characters; the stateful
bot is modelled by explicit state passing. -/

abbrev Str := List Char

/-- Decides whether the first list starts the second; building block for the
Python substring operator. -/
def isPre : Str → Str → Bool
  | x :: xs, y :: ys => x == y && isPre xs ys
  | [], _ => true
  | _ :: _, [] => false

/-- Decides whether `n` occurs contiguously inside `h`; models the Python
string operator `n in h`. -/
def strContains : Str → Str → Bool
  | [], n => isPre n []
  | c :: t, n => isPre n (c :: t) || strContains t n

/-- Models Python str.lower restricted to ASCII letters: the table of the 26
uppercase letters.  All text the repository feeds through lower() that the
claims depend on is ASCII. -/
def lowerChar : Char → Char
  | 'A' => 'a'
  | 'B' => 'b'
  | 'C' => 'c'
  | 'D' => 'd'
  | 'E' => 'e'
  | 'F' => 'f'
  | 'G' => 'g'
  | 'H' => 'h'
  | 'I' => 'i'
  | 'J' => 'j'
  | 'K' => 'k'
  | 'L' => 'l'
  | 'M' => 'm'
  | 'N' => 'n'
  | 'O' => 'o'
  | 'P' => 'p'
  | 'Q' => 'q'
  | 'R' => 'r'
  | 'S' => 's'
  | 'T' => 't'
  | 'U' => 'u'
  | 'V' => 'v'
  | 'W' => 'w'
  | 'X' => 'x'
  | 'Y' => 'y'
  | 'Z' => 'z'
  | c => c

/-- Models Python str.lower over a whole string. -/
def pyLower (s : Str) : Str := s.map lowerChar

/-- Models the Python slice l[-n:], the last at-most-n elements of l. -/
def takeLast {α : Type _} (n : Nat) (l : List α) : List α :=
  l.drop (l.length - n)

/-- Models Python sep.join(parts). -/
def joinSep (sep : Str) : List Str → Str
  | [] => []
  | [x] => x
  | x :: y :: rest => x ++ sep ++ joinSep sep (y :: rest)

/-- Models Python list(set(xs)) under a canonical first-occurrence order.  The
real set iteration order is unspecified; every property proved below is
insensitive to which order is produced. -/
def pySet : List Str → List Str
  | [] => []
  | x :: xs => x :: (pySet xs).filter (fun y => y != x)

theorem isPre_iff : ∀ (n h : Str), isPre n h = true ↔ ∃ t, h = n ++ t
  | [], h => by simp [isPre]
  | a :: as, [] => by simp [isPre]
  | a :: as, b :: bs => by
      simp only [isPre, Bool.and_eq_true, beq_iff_eq, isPre_iff as bs,
        List.cons_append, List.cons.injEq]
      constructor
      · rintro ⟨rfl, t, rfl⟩
        exact ⟨t, rfl, rfl⟩
      · rintro ⟨t, rfl, rfl⟩
        exact ⟨rfl, t, rfl⟩

theorem strContains_iff : ∀ (h n : Str), strContains h n = true ↔ ∃ u v, h = u ++ n ++ v
  | [], n => by
      constructor
      · intro hc
        obtain ⟨t, ht⟩ := (isPre_iff n []).mp hc
        exact ⟨[], t, by simpa using ht⟩
      · rintro ⟨u, v, huv⟩
        apply (isPre_iff n []).mpr
        rcases u with _ | ⟨a, u⟩
        · exact ⟨v, by simpa using huv⟩
        · simp at huv
  | c :: t, n => by
      simp only [strContains, Bool.or_eq_true, isPre_iff, strContains_iff t n]
      constructor
      · rintro (⟨s, hs⟩ | ⟨u, v, huv⟩)
        · exact ⟨[], s, by simpa using hs⟩
        · exact ⟨c :: u, v, by simp [huv]⟩
      · rintro ⟨u, v, huv⟩
        rcases u with _ | ⟨a, u⟩
        · exact Or.inl ⟨v, by simpa using huv⟩
        · simp only [List.cons_append, List.cons.injEq] at huv
          exact Or.inr ⟨u, v, huv.2⟩

theorem strContains_of_parts (h n u v : Str) (e : h = u ++ n ++ v) :
    strContains h n = true :=
  (strContains_iff h n).mpr ⟨u, v, e⟩

theorem mem_pySet : ∀ (l : List Str) (x : Str), x ∈ pySet l ↔ x ∈ l
  | [], x => by simp [pySet]
  | a :: as, x => by
      by_cases hx : x = a
      · subst hx
        simp [pySet]
      · simp [pySet, List.mem_filter, mem_pySet as x, hx, bne_iff_ne]

theorem pySet_nodup : ∀ l : List Str, (pySet l).Nodup
  | [] => by simp [pySet]
  | a :: as => by
      simp only [pySet, List.nodup_cons]
      constructor
      · intro hmem
        have := (List.mem_filter.mp hmem).2
        simp [bne_iff_ne] at this
      · exact (pySet_nodup as).filter _

theorem length_takeLast_le {α : Type _} (n : Nat) (l : List α) :
    (takeLast n l).length ≤ n := by
  simp only [takeLast, List.length_drop]
  omega

theorem takeLast_append_left {α : Type _} (n : Nat) (a b : List α) :
    takeLast n (takeLast n a ++ b) = takeLast n (a ++ b) := by
  rcases Nat.le_total a.length n with h | h
  · have : a.length - n = 0 := Nat.sub_eq_zero_of_le h
    simp [takeLast, this]
  · simp only [takeLast, List.length_append, List.length_drop,
      List.drop_append_eq_append_drop]
    rw [List.drop_drop]
    congr 1
    · congr 1
      omega
    · congr 1
      omega

/-! Embedding of the Profile Extractor (_extract_pdf_text, _clean_extracted_text,
_extract_preferences, _find_interests, _find_languages). -/

/-- ASCII whitespace matched by the regex class \s in _clean_extracted_text. -/
def pyIsSpace (c : Char) : Bool :=
  c == ' ' || c == '\t' || c == '\n' || c == '\r' || c == '\x0b' || c == '\x0c'

/-- Models re.sub applied with pattern \s+ and replacement a single space: each
maximal whitespace run becomes one space.  The flag records whether the
previous character was inside a whitespace run. -/
def collapseWSAux : Bool → Str → Str
  | _, [] => []
  | inRun, c :: cs =>
      if pyIsSpace c then
        if inRun then collapseWSAux true cs else ' ' :: collapseWSAux true cs
      else c :: collapseWSAux false cs

def collapseWS (s : Str) : Str := collapseWSAux false s

/-- Models Python str.strip: leading and trailing whitespace removed. -/
def pyStrip (s : Str) : Str :=
  ((s.dropWhile pyIsSpace).reverse.dropWhile pyIsSpace).reverse

/-- Models text.replace applied to the two-character pattern of a period
followed by a space, rewritten to a period followed by a newline. -/
def replaceDotSpace : Str → Str
  | [] => []
  | '.' :: ' ' :: rest => '.' :: '\n' :: replaceDotSpace rest
  | c :: rest => c :: replaceDotSpace rest

/-- Embeds _clean_extracted_text from app.py. -/
def clean_extracted_text (s : Str) : Str :=
  replaceDotSpace (pyStrip (collapseWS s))

/-- Embeds _extract_pdf_text from app.py.  The external open/parse collaborator
is represented by its outcome: either the page texts in order, or the raised
exception message; the try/except converts the latter to the empty string. -/
def extract_pdf_text (read_result : Except Str (List Str)) : Str :=
  match read_result with
  | Except.error _ => []
  | Except.ok pages => clean_extracted_text ((pages.map (fun p => p ++ [ '\n' ])).flatten)

/-- A word character of the regex class \w restricted to ASCII: letters,
digits, or underscore. -/
def isWordChar (c : Char) : Bool := c.isAlphanum || c == '_'

/-- Maximal runs of word characters in a string, left to right; the
accumulator holds the current run reversed.  Together with the length-4
filter below this models re.findall with the word-boundary pattern used by
_extract_topics. -/
def wordRunsAux : Str → Str → List Str
  | [], acc => if acc = [] then [] else [ acc.reverse ]
  | c :: cs, acc =>
      if isWordChar c then wordRunsAux cs (c :: acc)
      else if acc = [] then wordRunsAux cs []
      else acc.reverse :: wordRunsAux cs []

def wordRuns (s : Str) : List Str := wordRunsAux s []

/-- Embeds _extract_topics from app.py: word tokens of length at least 4 of
the lowercased text, deduplicated, first three kept. -/
def extract_topics (text : Str) : List Str :=
  (pySet ((wordRuns (pyLower text)).filter (fun t => decide (4 ≤ t.length)))).take 3

/-- Embeds _update_context from app.py restricted to the previous_topics list:
extend with the extracted topics, then truncate to the last 5. -/
def update_context (mem : List Str) (q : Str) : List Str :=
  takeLast 5 (mem ++ extract_topics q)

def interest_keywords : List Str :=
  [ ( "hobby" ).toList, ( "interest" ).toList, ( "passionate about" ).toList,
    ( "enjoy" ).toList, ( "like to" ).toList ]

def common_languages : List Str :=
  [ ( "English" ).toList, ( "Spanish" ).toList, ( "French" ).toList,
    ( "German" ).toList, ( "Mandarin" ).toList, ( "Arabic" ).toList,
    ( "Hindi" ).toList, ( "Portuguese" ).toList, ( "Russian" ).toList,
    ( "Japanese" ).toList ]

/-- Embeds _find_languages from app.py: the fixed languages whose lowercased
name occurs in the lowercased personal info. -/
def find_languages (personal_info : Str) : List Str :=
  common_languages.filter (fun lang => strContains (pyLower personal_info) (pyLower lang))

/-- Embeds _find_interests from app.py.  The re.findall collaborator that
captures the text after a trigger keyword is passed in as the function
`findall`; the guard only invokes it when the keyword occurs in the lowercased
personal info, and the collected matches are deduplicated set-style. -/
def find_interests (findall : Str → Str → List Str) (personal_info : Str) : List Str :=
  pySet (interest_keywords.foldl
    (fun acc k =>
      if strContains (pyLower personal_info) k then acc ++ findall k personal_info else acc)
    [])

def professional_lit : Str := ( "professional" ).toList

def casual_lit : Str := ( "casual" ).toList

structure Preferences where
  communication_style : Str
  interests : List Str
  languages : List Str
  deriving DecidableEq

/-- Embeds _extract_preferences from app.py. -/
def extract_preferences (findall : Str → Str → List Str) (personal_info : Str) : Preferences :=
  { communication_style :=
      if strContains (pyLower personal_info) professional_lit then professional_lit
      else casual_lit,
    interests := find_interests findall personal_info,
    languages := find_languages personal_info }

/-! Embedding of the Context Composer (_build_context_prompt, generate_response,
_update_context on the bot state) and the Conversation Shell submission step. -/

structure ChatMsg where
  role : Str
  content : Str
  deriving DecidableEq

structure ContextMemory where
  conversation_tone : Str
  previous_topics : List Str
  user_preferences : Preferences
  deriving DecidableEq

structure BotState where
  personal_info : Str
  context_memory : ContextMemory
  deriving DecidableEq

/-- The hexadecimal digits used by the JSON unicode escapes. -/
def hexDigit (n : Nat) : Char := ( "0123456789abcdef" ).toList.getD n '0'

def hex4 (n : Nat) : Str :=
  [ hexDigit (n / 4096 % 16), hexDigit (n / 256 % 16), hexDigit (n / 16 % 16), hexDigit (n % 16) ]

/-- The backslash-u escape json.dumps emits for a non-printable or non-ASCII
character, with a surrogate pair above the basic plane. -/
def uEscape (n : Nat) : Str :=
  if n < 65536 then '\\' :: 'u' :: hex4 n
  else
    '\\' :: 'u' :: hex4 (55296 + (n - 65536) / 1024) ++ '\\' :: 'u' :: hex4 (56320 + (n - 65536) % 1024)

/-- How json.dumps with ensure_ascii renders one character inside a string
literal: printable ASCII other than the quote and the backslash is copied,
everything else is escaped. -/
def jsonEscapeChar (c : Char) : Str :=
  if c.toNat = 34 then [ '\\', '"' ]
  else if c.toNat = 92 then [ '\\', '\\' ]
  else if c.toNat = 10 then [ '\\', 'n' ]
  else if c.toNat = 13 then [ '\\', 'r' ]
  else if c.toNat = 9 then [ '\\', 't' ]
  else if c.toNat = 8 then [ '\\', 'b' ]
  else if c.toNat = 12 then [ '\\', 'f' ]
  else if c.toNat < 32 ∨ 127 ≤ c.toNat then uEscape c.toNat
  else [ c ]

def jsonEscape (s : Str) : Str := (s.map jsonEscapeChar).flatten

/-- A JSON string literal as json.dumps renders it. -/
def jsonString (s : Str) : Str := '"' :: (jsonEscape s ++ [ '"' ])

/-- A character json.dumps copies into the output unchanged. -/
def plainChar (c : Char) : Bool :=
  decide (32 ≤ c.toNat ∧ c.toNat ≤ 126 ∧ c.toNat ≠ 34 ∧ c.toNat ≠ 92)

/-- A JSON array of strings as json.dumps renders it at nesting depth two with
indent 2: items on their own lines under six spaces, closing bracket under
four, and the empty array compact. -/
def jsonArray4 (items : List Str) : Str :=
  match items with
  | [] => ( "[]" ).toList
  | _ => ( "[\n" ).toList
      ++ joinSep ( ",\n" ).toList (items.map (fun s => ( "      " ).toList ++ jsonString s))
      ++ ( "\n    ]" ).toList

def csj_part1 : Str := ( "\x7b\n  \"Personal Background\": " ).toList

def csj_part2 : Str := ( ",\n  \"Interaction Style\": \x7b\n    \"Tone\": " ).toList

def csj_part3 : Str := ( ",\n    \"Communication Preferences\": " ).toList

def csj_part4 : Str := ( ",\n    \"Languages\": " ).toList

def csj_part5 : Str := ( "\n  \x7d,\n  \"Conversation Context\": \x7b\n    \"Previous Topics\": " ).toList

def csj_part6 : Str := ( ",\n    \"Current Query\": " ).toList

def csj_last : Str := ( "\n  \x7d\n\x7d" ).toList

/-- Everything json.dumps renders for context_sections before the value of the
Current Query key. -/
def csj_front (st : BotState) : Str :=
  csj_part1 ++ jsonString st.personal_info
  ++ csj_part2 ++ jsonString st.context_memory.conversation_tone
  ++ csj_part3 ++ jsonString st.context_memory.user_preferences.communication_style
  ++ csj_part4 ++ jsonArray4 st.context_memory.user_preferences.languages
  ++ csj_part5 ++ jsonArray4 st.context_memory.previous_topics
  ++ csj_part6

/-- The json.dumps rendering, with indent 2, of the context_sections dict
built in _build_context_prompt: Personal Background, Interaction Style with
Tone, Communication Preferences and Languages, and Conversation Context with
Previous Topics and the Current Query. -/
def context_sections_json (st : BotState) (q : Str) : Str :=
  csj_front st ++ jsonString q ++ csj_last

def base_persona : Str :=
  ( "\n        You are Srikanth\x27s personal AI assistant. Your role is to be helpful, friendly, and knowledgeable about Srikanth\x27s background and experiences. When responding:\n        - Maintain a warm, professional tone while being conversational\n        - Draw from the provided personal information to give accurate, relevant answers\n        - Show enthusiasm when discussing Srikanth\x27s achievements and experiences\n        - If asked about something not in your knowledge base, politely acknowledge the limitation\n        - Use natural transitions and conversational markers (e.g., \"Actually...\", \"You know...\", \"Interestingly...\")\n        - Occasionally reference previous parts of the conversation to show active listening\n        - End responses with gentle encouragement for follow-up questions when appropriate\n        " ).toList

def response_guidelines : Str :=
  ( "\n        Response Guidelines:\n        1. Start responses naturally, avoiding robotic or overly formal language\n        2. Include relevant details from Srikanth\x27s background when applicable\n        3. Keep answers concise but informative\n        4. Use a friendly, conversational tone while maintaining professionalism\n        5. If the query is unclear, ask for clarification politely\n        6. Acknowledge and build upon any previous context from the conversation\n        7. Show genuine interest in helping the user understand about Srikanth\n        " ).toList

def context_info_header : Str := ( "\nContext Information:" ).toList

def recent_header : Str := ( "\nRecent Conversation:" ).toList

/-- One line of the Recent Conversation section, as the f-string in the loop
renders a message. -/
def fmtMsg (m : ChatMsg) : Str := '\n' :: (m.role ++ ( ": " ).toList ++ m.content)

/-- The Recent Conversation block built from the trailing three history
entries. -/
def recent_context (hist : List ChatMsg) : Str :=
  recent_header ++ ((takeLast 3 hist).map fmtMsg).flatten

def sep2 : Str := [ '\n', '\n' ]

/-- The prompt_parts list of _build_context_prompt: persona, header, the JSON
context sections and guidelines, plus the recent-conversation block when the
history is non-empty (Python truthiness of the list). -/
def prompt_parts (st : BotState) (q : Str) (hist : List ChatMsg) : List Str :=
  [ base_persona, context_info_header, context_sections_json st q, response_guidelines ]
  ++ (if hist = [] then [] else [ recent_context hist ])

/-- Embeds _build_context_prompt from app.py. -/
def build_context_prompt (st : BotState) (q : Str) (hist : List ChatMsg) : Str :=
  joinSep sep2 (prompt_parts st q hist)

def apology_head : Str :=
  ( "I\x27m having trouble processing that. Could you rephrase? Error: " ).toList

/-- The context-memory update generate_response performs on success. -/
def update_context_state (st : BotState) (q : Str) : BotState :=
  { st with context_memory :=
      { st.context_memory with
          previous_topics := update_context st.context_memory.previous_topics q } }

/-- Embeds generate_response from app.py.  The external generate_content call
is the function `inference` from the composed prompt to either the generated
text or the raised exception message; on success the context memory is
updated and the text returned, on failure the apology string embedding the
error text is returned and the state is left as it was. -/
def generate_response (inference : Str → Except Str Str) (st : BotState) (q : Str)
    (hist : List ChatMsg) : Str × BotState :=
  match inference (build_context_prompt st q hist) with
  | Except.ok text => (text, update_context_state st q)
  | Except.error e => (apology_head ++ e, st)

def user_role : Str := ( "user" ).toList

def assistant_role : Str := ( "assistant" ).toList

structure SubmissionResult where
  log : List ChatMsg
  bot : BotState
  follow_up_shown : Option Str
  deriving DecidableEq

/-- Embeds one user submission of create_streamlit_interface: the user turn is
appended to the session log, generate_response is called with the full log,
the randomly chosen follow-up template is displayed as supplementary text
(never logged) exactly when the log length counting the new user turn is
divisible by three, and the assistant turn is appended. -/
def handle_submission (inference : Str → Except Str Str) (st : BotState)
    (msgs : List ChatMsg) (prompt : Str) (followUp : Str) : SubmissionResult :=
  let msgs1 := msgs ++ [ ChatMsg.mk user_role prompt ]
  let r := generate_response inference st prompt msgs1
  let shown := if msgs1.length % 3 = 0 then some followUp else none
  { log := msgs1 ++ [ ChatMsg.mk assistant_role r.1 ], bot := r.2, follow_up_shown := shown }

/-- The re.findall collaborator of a bot whose profile text is empty: it is
never consulted, and any function can stand in its place. -/
def no_findall : Str → Str → List Str := fun _ _ => []

/-- The bot state right after construction from an unreadable document: empty
profile text, friendly tone, no previous topics, defaulted preferences. -/
def sample_state : BotState :=
  { personal_info := [],
    context_memory :=
      { conversation_tone := ( "friendly" ).toList,
        previous_topics := [],
        user_preferences := extract_preferences no_findall [] } }

def sample_history : List ChatMsg :=
  [ ChatMsg.mk assistant_role ( "hello" ).toList,
    ChatMsg.mk user_role ( "one" ).toList,
    ChatMsg.mk assistant_role ( "two" ).toList,
    ChatMsg.mk user_role ( "three" ).toList,
    ChatMsg.mk assistant_role ( "four" ).toList ]

/-! Supporting lemmas about the embedded operations. -/

theorem jsonEscapeChar_plain (c : Char) (h : plainChar c = true) :
    jsonEscapeChar c = [ c ] := by
  have h' := of_decide_eq_true h
  obtain ⟨h1, h2, h3, h4⟩ := h'
  unfold jsonEscapeChar
  repeat rw [if_neg (by omega)]

theorem jsonEscape_plain : ∀ q : Str, (∀ c ∈ q, plainChar c = true) → jsonEscape q = q
  | [], _ => rfl
  | c :: t, h => by
      have hc := jsonEscapeChar_plain c (h c (by simp))
      have ht := jsonEscape_plain t (fun d hd => h d (by simp [hd]))
      simp only [jsonEscape, List.map_cons, List.flatten_cons] at *
      simp [hc, ht]

theorem joinSep_decomp (sep : Str) :
    ∀ (parts : List Str) (p : Str), p ∈ parts → ∃ u v, joinSep sep parts = u ++ p ++ v
  | [], p, h => by simp at h
  | [x], p, h => by
      simp at h
      subst h
      exact ⟨[], [], by simp [joinSep]⟩
  | x :: y :: rest, p, h => by
      rcases List.mem_cons.mp h with hx | hy
      · subst hx
        exact ⟨[], sep ++ joinSep sep (y :: rest), by simp [joinSep]⟩
      · obtain ⟨u, v, huv⟩ := joinSep_decomp sep (y :: rest) p hy
        exact ⟨x ++ sep ++ u, v, by simp [joinSep, huv]⟩

theorem wordRunsAux_all : ∀ (l acc : Str), acc.all isWordChar = true →
    ∀ t ∈ wordRunsAux l acc, t.all isWordChar = true
  | [], acc, hacc, t, ht => by
      unfold wordRunsAux at ht
      split at ht
      · simp at ht
      · simp at ht
        subst ht
        simpa using hacc
  | c :: cs, acc, hacc, t, ht => by
      unfold wordRunsAux at ht
      by_cases hw : isWordChar c = true
      · rw [if_pos hw] at ht
        exact wordRunsAux_all cs (c :: acc) (by simp [List.all_cons, hw, hacc]) t ht
      · rw [if_neg hw] at ht
        split at ht
        · exact wordRunsAux_all cs [] rfl t ht
        · rcases List.mem_cons.mp ht with h1 | h2
          · subst h1
            simpa using hacc
          · exact wordRunsAux_all cs [] rfl t h2

theorem wordRunsAux_decomp : ∀ (l acc : Str), ∀ t ∈ wordRunsAux l acc,
    ∃ u v, acc.reverse ++ l = u ++ t ++ v
  | [], acc, t, ht => by
      unfold wordRunsAux at ht
      split at ht
      · simp at ht
      · simp at ht
        subst ht
        exact ⟨[], [], by simp⟩
  | c :: cs, acc, t, ht => by
      unfold wordRunsAux at ht
      by_cases hw : isWordChar c = true
      · rw [if_pos hw] at ht
        obtain ⟨u, v, huv⟩ := wordRunsAux_decomp cs (c :: acc) t ht
        refine ⟨u, v, ?_⟩
        simp only [List.reverse_cons] at huv
        rw [← huv]
        simp
      · rw [if_neg hw] at ht
        split at ht
        · rename_i hacc
          obtain ⟨u, v, huv⟩ := wordRunsAux_decomp cs [] t ht
          subst hacc
          exact ⟨c :: u, v, by simp [← huv]⟩
        · rcases List.mem_cons.mp ht with h1 | h2
          · subst h1
            exact ⟨[], c :: cs, by simp⟩
          · obtain ⟨u, v, huv⟩ := wordRunsAux_decomp cs [] t h2
            exact ⟨acc.reverse ++ c :: u, v, by simp [← huv]⟩

theorem wordRuns_all (s : Str) : ∀ t ∈ wordRuns s, t.all isWordChar = true :=
  wordRunsAux_all s [] rfl

theorem wordRuns_decomp (s : Str) : ∀ t ∈ wordRuns s, ∃ u v, s = u ++ t ++ v := by
  intro t ht
  obtain ⟨u, v, huv⟩ := wordRunsAux_decomp s [] t ht
  exact ⟨u, v, by simpa using huv⟩

theorem update_foldl : ∀ (qs : List Str) (m : List Str),
    qs.foldl update_context (takeLast 5 m) = takeLast 5 (m ++ (qs.map extract_topics).flatten)
  | [], m => by simp [takeLast]
  | q :: qs, m => by
      have key : update_context (takeLast 5 m) q = takeLast 5 (m ++ extract_topics q) := by
        unfold update_context
        exact takeLast_append_left 5 m (extract_topics q)
      have ih := update_foldl qs (m ++ extract_topics q)
      simp only [List.foldl_cons, key, ih, List.map_cons, List.flatten_cons,
        List.append_assoc]

/-! The claims. -/

/-- C1, amended: for every bot state, chat history and user query consisting of
characters json.dumps copies unchanged (printable ASCII other than the double
quote and the backslash), the composed prompt contains the literal query text
as a substring.  Queries with characters the JSON encoder escapes refute the
unconditional claim. -/
theorem c1_query_in_prompt (st : BotState) (q : Str) (hist : List ChatMsg)
    (h : ∀ c ∈ q, plainChar c = true) :
    strContains (build_context_prompt st q hist) q = true := by
  have hesc : jsonEscape q = q := jsonEscape_plain q h
  have hmem : context_sections_json st q ∈ prompt_parts st q hist := by
    simp [prompt_parts]
  obtain ⟨u, v, huv⟩ := joinSep_decomp sep2 (prompt_parts st q hist) _ hmem
  apply strContains_of_parts _ _ (u ++ (csj_front st ++ [ '"' ])) (([ '"' ] ++ csj_last) ++ v)
  rw [build_context_prompt, huv, context_sections_json, jsonString, hesc]
  simp [List.append_assoc]

/-- Witness for C1 at a concrete plain query. -/
theorem c1_witness :
    strContains (build_context_prompt sample_state ( "hello" ).toList []) ( "hello" ).toList
      = true :=
  c1_query_in_prompt sample_state ( "hello" ).toList [] (by decide)

set_option maxRecDepth 100000 in
/-- C1 counterexample: a query consisting of the control character with code 1
is JSON-escaped, so the prompt built for it does not contain it. -/
theorem c1_counterexample :
    strContains (build_context_prompt sample_state [ '\x01' ] []) [ '\x01' ] = false := by
  decide

/-- C2, amended: when the downstream inference call raises, generate_response
returns the fixed apology string with the error text interpolated, and the bot
state, topic memory included, is left exactly as it was: the update is
skipped, not performed. -/
theorem c2_failure_semantics (inference : Str → Except Str Str) (st : BotState) (q : Str)
    (hist : List ChatMsg) (e : Str)
    (h : inference (build_context_prompt st q hist) = Except.error e) :
    generate_response inference st q hist = (apology_head ++ e, st) := by
  unfold generate_response
  rw [h]

/-- Witness for C2 at a concrete failing inference call. -/
theorem c2_witness :
    generate_response (fun _ => Except.error ( "boom" ).toList) sample_state
      ( "what are his hobbies" ).toList [] =
      (apology_head ++ ( "boom" ).toList, sample_state) :=
  c2_failure_semantics (fun _ => Except.error ( "boom" ).toList) sample_state
    ( "what are his hobbies" ).toList [] ( "boom" ).toList rfl

/-- C2 counterexample: on a failing inference call the topic memory is NOT
extended with the tokens of the query; the update only happens on success. -/
theorem c2_counterexample :
    ¬ ((generate_response (fun _ => Except.error ( "boom" ).toList) sample_state
        ( "what are his hobbies" ).toList []).2.context_memory.previous_topics =
      update_context sample_state.context_memory.previous_topics
        ( "what are his hobbies" ).toList) := by
  decide

/-- C3: whenever the document open or parse step raises, _extract_pdf_text
returns the empty string; being a total function of the read outcome, it
propagates nothing. -/
theorem c3_extract_failure (e : Str) : extract_pdf_text (Except.error e) = [] := rfl

/-- C4: starting from the empty topic memory, after any sequence of
_update_context calls the memory has at most 5 entries and equals the last
at-most-5 tokens appended across all turns, in append order. -/
theorem c4_topic_memory (qs : List Str) :
    (qs.foldl update_context []).length ≤ 5 ∧
      qs.foldl update_context [] = takeLast 5 ((qs.map extract_topics).flatten) := by
  have h0 : takeLast 5 ([] : List Str) = [] := rfl
  have h := update_foldl qs []
  rw [h0] at h
  simp only [List.nil_append] at h
  exact ⟨h ▸ length_takeLast_le 5 _, h⟩

/-- C5: the derived communication style is the string professional exactly when
the lowercased profile text has the substring professional, and casual exactly
otherwise, for every profile text and any findall collaborator. -/
theorem c5_communication_style (findall : Str → Str → List Str) (info : Str) :
    (((extract_preferences findall info).communication_style = professional_lit) ↔
      ∃ u v, pyLower info = u ++ professional_lit ++ v)
    ∧ (((extract_preferences findall info).communication_style = casual_lit) ↔
      ¬ ∃ u v, pyLower info = u ++ professional_lit ++ v) := by
  by_cases h : strContains (pyLower info) professional_lit = true
  · have hd := (strContains_iff _ _).mp h
    have hstyle : (extract_preferences findall info).communication_style = professional_lit := by
      simp [extract_preferences, h]
    rw [hstyle]
    constructor
    · exact iff_of_true rfl hd
    · constructor
      · intro hc
        exact absurd hc (by decide)
      · intro hn
        exact absurd hd hn
  · have hstyle : (extract_preferences findall info).communication_style = casual_lit := by
      simp [extract_preferences, h]
    have hnd : ¬ ∃ u v, pyLower info = u ++ professional_lit ++ v :=
      fun hex => h ((strContains_iff _ _).mpr hex)
    rw [hstyle]
    constructor
    · constructor
      · intro hc
        exact absurd hc (by decide)
      · intro hex
        exact absurd hex hnd
    · exact iff_of_true rfl hnd

/-- C6: _find_languages returns exactly the fixed languages whose lowercased
name occurs in the lowercased profile text, and on the sample sentence it
returns Spanish and Hindi. -/
theorem c6_find_languages :
    (∀ info lang : Str, lang ∈ find_languages info ↔
      (lang ∈ common_languages ∧ ∃ u v, pyLower info = u ++ pyLower lang ++ v))
    ∧ find_languages ( "I speak Spanish and Hindi." ).toList
      = [ ( "Spanish" ).toList, ( "Hindi" ).toList ] := by
  constructor
  · intro info lang
    simp [find_languages, List.mem_filter, strContains_iff]
  · decide

/-- C7, amended: _extract_topics returns at most 3 pairwise distinct tokens,
each a word-character token (letters, digits or underscore) of length at
least 4 occurring in the lowercased input, and on the sample query the tokens
are exactly what and hobbies.  Underscores refute the strictly alphanumeric
reading. -/
theorem c7_topic_tokens :
    (∀ text : Str, (extract_topics text).length ≤ 3 ∧ (extract_topics text).Nodup ∧
      ∀ t ∈ extract_topics text, 4 ≤ t.length ∧ t.all isWordChar = true ∧
        strContains (pyLower text) t = true)
    ∧ extract_topics ( "What are his hobbies?" ).toList
      = [ ( "what" ).toList, ( "hobbies" ).toList ] := by
  constructor
  · intro text
    refine ⟨?_, ?_, ?_⟩
    · exact List.length_take_le 3 _
    · exact List.Nodup.sublist (List.take_sublist _ _) (pySet_nodup _)
    · intro t ht
      have ht1 : t ∈ pySet ((wordRuns (pyLower text)).filter (fun t => decide (4 ≤ t.length))) :=
        List.mem_of_mem_take ht
      have ht2 := (mem_pySet _ _).mp ht1
      obtain ⟨hmem, hlen⟩ := List.mem_filter.mp ht2
      refine ⟨of_decide_eq_true hlen, wordRuns_all _ t hmem, ?_⟩
      obtain ⟨u, v, huv⟩ := wordRuns_decomp _ t hmem
      exact strContains_of_parts _ _ u v huv
  · decide

/-- C7 counterexample: on input containing an underscore run, the returned
token is not purely alphanumeric. -/
theorem c7_counterexample :
    ¬ ∀ t ∈ extract_topics ( "ab_cd" ).toList, t.all Char.isAlphanum = true := by
  decide

/-- C8: for every non-empty history the prompt contains the Recent
Conversation section built from exactly the trailing at-most-3 entries, each
formatted as a role-colon-content line, in order. -/
theorem c8_recent_conversation (st : BotState) (q : Str) (hist : List ChatMsg)
    (h : hist ≠ []) :
    ∃ u v, build_context_prompt st q hist =
      u ++ (recent_header ++ ((hist.drop (hist.length - 3)).map fmtMsg).flatten) ++ v := by
  have hmem : recent_context hist ∈ prompt_parts st q hist := by
    simp [prompt_parts, h]
  obtain ⟨u, v, huv⟩ := joinSep_decomp sep2 (prompt_parts st q hist) _ hmem
  refine ⟨u, v, ?_⟩
  rw [build_context_prompt, huv]
  rfl

/-- Witness for C8 at a concrete five-entry history. -/
theorem c8_witness :
    ∃ u v, build_context_prompt sample_state ( "hi" ).toList sample_history =
      u ++ (recent_header ++
        ((sample_history.drop (sample_history.length - 3)).map fmtMsg).flatten) ++ v :=
  c8_recent_conversation sample_state ( "hi" ).toList sample_history (by decide)

/-- C9: each submission appends exactly the user turn and the assistant
response to the log, the follow-up template is displayed exactly when the log
length counting the new user turn is divisible by three, and the logged
sequence never depends on the follow-up text. -/
theorem c9_submission_log (inference : Str → Except Str Str) (st : BotState)
    (msgs : List ChatMsg) (prompt followUp : Str) :
    (handle_submission inference st msgs prompt followUp).log =
      msgs ++ [ ChatMsg.mk user_role prompt,
        ChatMsg.mk assistant_role
          (generate_response inference st prompt (msgs ++ [ ChatMsg.mk user_role prompt ])).1 ]
    ∧ ((handle_submission inference st msgs prompt followUp).follow_up_shown = some followUp ↔
        (msgs.length + 1) % 3 = 0)
    ∧ ∀ fu2 : Str, (handle_submission inference st msgs prompt fu2).log =
        (handle_submission inference st msgs prompt followUp).log := by
  refine ⟨?_, ?_, ?_⟩
  · simp [handle_submission]
  · by_cases h : (msgs.length + 1) % 3 = 0 <;> simp [handle_submission, h]
  · intro fu2
    rfl

/-- C10: with the empty profile text of a failed extraction, the derived
preferences are exactly the casual style with no interests and no languages,
for any findall collaborator. -/
theorem c10_empty_profile (findall : Str → Str → List Str) :
    extract_preferences findall [] = Preferences.mk casual_lit [] [] := rfl
